import Mathlib

/-!
Verification of the peer-to-peer MessageServer (pkg/p2p/server.go).

The definitions below are a shallow embedding of the server code:
maps are association lists, the single-threaded task loop becomes an
explicit state-transition function, and the fallible pieces (worker-pool
submission, stream sends, payload decoding, the user callback) become
explicit boolean or Except-valued oracles.  Panics (log.Panic) are
modelled by returning none.
-/

namespace P2PServer

/-- Error taxonomy of the p2p package (pkg/errors), restricted to the
errors reachable from server.go.  Arguments mirror GenWithStackByArgs. -/
inductive PError where
  | topicCongested
  | taskQueueCongested
  | staleConnection (oldEpoch newEpoch : Int)
  | receiverMismatch (expected actual : String)
  | duplicateConnection (epoch : Int)
  | illegalMeta
  | tooManyPeers (count : Nat)
  | dataLost (topic : String) (seq : Int)
  | serverClosed
  | decodeError
  | handlerError
  | ctxCanceled
  deriving Repr, DecidableEq

/-- Wire-visible exit reasons (proto/p2p ExitReason enum). -/
inductive ExitReason where
  | ok
  | congested
  | staleConnection
  | captureIdMismatch
  | unknown
  deriving Repr, DecidableEq

/-- SendMessageResponse: acks plus exit reason and error message. -/
structure SendMessageResponse where
  acks : List (String × Int)
  exitReason : ExitReason
  errorMessage : String
  deriving Repr, DecidableEq

/-- errorToRPCResponse from server.go.  The cerror Equal checks compare
error identities, so they become a match on the error constructor.  The
Go err.Error() rendering is abstracted as the msg function. -/
def errorToRPCResponse (msg : PError → String) (err : PError) : SendMessageResponse :=
  match err with
  | .topicCongested => ⟨[], .congested, msg err⟩
  | .taskQueueCongested => ⟨[], .congested, msg err⟩
  | .staleConnection _ _ => ⟨[], .staleConnection, msg err⟩
  | .receiverMismatch _ _ => ⟨[], .captureIdMismatch, msg err⟩
  | _ => ⟨[], .unknown, msg err⟩

/-- The exit reason claimed by the spec for each error kind: CONGESTED
for TopicCongested and TaskQueueCongested, STALE_CONNECTION for
StaleConnection, CAPTURE_ID_MISMATCH for ReceiverMismatch, UNKNOWN for
every other error.  This definition follows the words of the spec and is
compared against errorToRPCResponse, which is translated from the code. -/
def specExitReason (err : PError) : ExitReason :=
  match err with
  | .topicCongested => .congested
  | .taskQueueCongested => .congested
  | .staleConnection _ _ => .staleConnection
  | .receiverMismatch _ _ => .captureIdMismatch
  | _ => .unknown

/-- Modelled from the spec: the sentinel initAck of the ack manager
(ack_manager.go is not part of the sources provided); the spec fixes it
to 0, with real sequence numbers starting at 1. -/
def initAck : Int := 0

/-- Modelled from the spec: the ack table maps (senderID, topic) to the
last delivered sequence.  An association list stands in for the map. -/
abbrev AckTable := List ((String × String) × Int)

/-- Modelled from the spec: ackManager.Get returns the stored last ack
for (senderID, topic), or initAck when none is stored. -/
def acksGet (a : AckTable) (senderID topic : String) : Int :=
  match a.find? (fun kv => decide (kv.1 = (senderID, topic))) with
  | some kv => kv.2
  | none => initAck

/-- Modelled from the spec: ackManager.Set stores the last ack for
(senderID, topic). -/
def acksSet (a : AckTable) (senderID topic : String) (seq : Int) : AckTable :=
  a.filter (fun kv => !(decide (kv.1 = (senderID, topic)))) ++ [((senderID, topic), seq)]

deriving instance DecidableEq for Except

/-- Outcome of one run of the worker-pool handler wrapper: the error
value returned to the pool, the ack table after the run, and whether the
user callback fn was invoked. -/
structure HandlerOutcome where
  result : Except PError Unit
  acks : AckTable
  invoked : Bool
  deriving Repr, DecidableEq

/-- The handler wrapper registered by AddHandler (server.go, the
poolEventArgs branch).  decodeOk stands for unmarshalMessage succeeding
and fnResult for the value returned by the user callback fn. -/
def poolEventHandler (acks : AckTable) (senderID topic : String) (sequence : Int)
    (decodeOk : Bool) (fnResult : Except PError Unit) : HandlerOutcome :=
  let lastAck := acksGet acks senderID topic
  if lastAck ≥ sequence then
    ⟨.ok (), acks, false⟩
  else if lastAck ≠ initAck ∧ sequence > lastAck + 1 then
    ⟨.error (.dataLost topic (lastAck + 1)), acks, false⟩
  else if ¬ decodeOk then
    ⟨.error .decodeError, acks, false⟩
  else
    match fnResult with
    | .error e => ⟨.error e, acks, true⟩
    | .ok _ => ⟨.ok (), acksSet acks senderID topic sequence, true⟩

/-- Tasks that the handler wrapper can schedule on the server queue. -/
inductive ServerTask where
  | deregisterHandlerTask (topic : String)
  deriving Repr, DecidableEq

/-- The OnExit callback installed by AddHandler: any terminating handler
error schedules a taskOnDeregisterHandler for the topic. -/
def handlerOnExit (topic : String) (_e : PError) : ServerTask :=
  .deregisterHandlerTask topic

/-- Replaying a list of wire entries (sequence, decodeOk, fnResult) for a
fixed (sender, topic) through the handler wrapper, tracking the final ack
table and the number of callback invocations. -/
def replayEntries (acks : AckTable) (senderID topic : String)
    (entries : List (Int × Bool × Except PError Unit)) : AckTable × Nat :=
  entries.foldl (fun acc e =>
    let out := poolEventHandler acc.1 senderID topic e.1 e.2.1 e.2.2
    (out.acks, acc.2 + (if out.invoked then 1 else 0))) (acks, 0)

/-- The fields of MessageServerConfig that the verified operations read.
Both are Go ints, hence Int here. -/
structure MessageServerConfig where
  maxPendingMessageCountPerTopic : Int
  maxPeerCount : Int
  deriving Repr, DecidableEq

/-- cdcPeer: the information stored per connected client. -/
structure CDCPeer where
  peerID : String
  epoch : Int
  valid : Bool
  deriving Repr, DecidableEq

/-- newCDCPeer constructs a peer with valid set to true. -/
def newCDCPeer (senderID : String) (epoch : Int) : CDCPeer :=
  ⟨senderID, epoch, true⟩

/-- topicSenderPair: the key of the pending-message buffer. -/
structure TopicSenderPair where
  topic : String
  senderID : String
  deriving Repr, DecidableEq

/-- pendingMessageEntry: either a wire entry with its stream meta or a
local raw entry.  A wire entry keeps the sender, epoch, topic and
sequence that the dispatch code reads; a raw entry keeps its topic. -/
inductive PendingMessageEntry where
  | wire (senderID : String) (epoch : Int) (topic : String) (sequence : Int)
  | raw (topic : String)
  deriving Repr, DecidableEq

/-- The topic a pending entry is addressed to. -/
def entryTopic : PendingMessageEntry → String
  | .wire _ _ t _ => t
  | .raw t => t

abbrev PeerMap := List (String × CDCPeer)

abbrev PendingMap := List (TopicSenderPair × List PendingMessageEntry)

/-- The state mutated by the MessageServer main loop: the peer map, the
set of topics with a registered handler, the pending-message buffer and
the ack table. -/
structure ServerState where
  peers : PeerMap
  handlers : List String
  pendingMessages : PendingMap
  acks : AckTable
  deriving Repr, DecidableEq

/-- The state of a freshly constructed MessageServer. -/
def initialServerState : ServerState := ⟨[], [], [], []⟩

def lookupPeer : PeerMap → String → Option CDCPeer
  | [], _ => none
  | kv :: rest, id => if kv.1 = id then some kv.2 else lookupPeer rest id

def erasePeer : PeerMap → String → PeerMap
  | [], _ => []
  | kv :: rest, id => if kv.1 = id then erasePeer rest id else kv :: erasePeer rest id

def insertPeer (peers : PeerMap) (id : String) (p : CDCPeer) : PeerMap :=
  erasePeer peers id ++ [(id, p)]

def pendingLookup : PendingMap → TopicSenderPair → List PendingMessageEntry
  | [], _ => []
  | kv :: rest, key => if kv.1 = key then kv.2 else pendingLookup rest key

def pendingErase : PendingMap → TopicSenderPair → PendingMap
  | [], _ => []
  | kv :: rest, key => if kv.1 = key then pendingErase rest key else kv :: pendingErase rest key

def pendingSet (pm : PendingMap) (key : TopicSenderPair)
    (v : List PendingMessageEntry) : PendingMap :=
  pendingErase pm key ++ [(key, v)]

/-- Number of buffered entries for one (topic, senderID) key. -/
def pendingCount (st : ServerState) (key : TopicSenderPair) : Nat :=
  (pendingLookup st.pendingMessages key).length

/-- Observable side effects of a state transition. -/
inductive ServerEvent where
  | peerDeregistered (peerID : String) (err : Option PError)
  | eventSubmitted (topic senderID : String)
  | rawEventSubmitted (topic : String)
  deriving Repr, DecidableEq

/-- deregisterPeer: removes the peer from the map and, when an error is
attached, aborts the peer (abort panics when the peer is already
invalid, modelled as none). -/
def deregisterPeerM (st : ServerState) (peer : CDCPeer) (err : Option PError) :
    Option (ServerState × List ServerEvent) :=
  let st1 : ServerState := { st with peers := erasePeer st.peers peer.peerID }
  match err with
  | none => some (st1, [.peerDeregistered peer.peerID none])
  | some e =>
      if peer.valid then some (st1, [.peerDeregistered peer.peerID (some e)])
      else none

/-- deregisterPeerByID: looks the peer up and deregisters it without an
error; a missing peer is only logged. -/
def deregisterPeerByID (st : ServerState) (peerID : String) :
    Option (ServerState × List ServerEvent) :=
  match lookupPeer st.peers peerID with
  | none => some (st, [])
  | some peer => deregisterPeerM st peer none

/-- Result of registerPeer: the returned error value, the state after
the call and the emitted events. -/
structure RegisterPeerResult where
  result : Except PError Unit
  state : ServerState
  events : List ServerEvent
  deriving Repr, DecidableEq

/-- registerPeer from server.go.  With no existing peer the count is
checked against MaxPeerCount (strictly greater) before installing; with
an existing peer the epochs arbitrate: larger stored epoch rejects the
incoming stream as stale, smaller stored epoch deregisters the stored
peer with a stale-connection error and installs the incoming one, and
equality rejects the incoming stream as a duplicate. -/
def registerPeer (cfg : MessageServerConfig) (st : ServerState)
    (senderID : String) (epoch : Int) : Option RegisterPeerResult :=
  match lookupPeer st.peers senderID with
  | none =>
      let peerCount := st.peers.length
      if (peerCount : Int) > cfg.maxPeerCount then
        some ⟨.error (.tooManyPeers peerCount), st, []⟩
      else
        some ⟨.ok (), { st with peers := insertPeer st.peers senderID (newCDCPeer senderID epoch) }, []⟩
  | some peer =>
      if peer.epoch > epoch then
        some ⟨.error (.staleConnection epoch peer.epoch), st, []⟩
      else if peer.epoch < epoch then
        match deregisterPeerM st peer (some (.staleConnection peer.epoch epoch)) with
        | none => none
        | some (st1, evs) =>
            some ⟨.ok (), { st1 with peers := insertPeer st1.peers senderID (newCDCPeer senderID epoch) }, evs⟩
      else
        some ⟨.error (.duplicateConnection epoch), st, []⟩

/-- How the main loop treats an error returned by registerPeer: only
stale-connection and duplicate-connection errors are answered with an
RPC response and the loop continues; every other error is returned and
terminates the run loop. -/
inductive RegisterPeerErrorDisposition where
  | respondAndContinue
  | fatal
  deriving Repr, DecidableEq

def registerPeerErrorDisposition (e : PError) : RegisterPeerErrorDisposition :=
  match e with
  | .staleConnection _ _ => .respondAndContinue
  | .duplicateConnection _ => .respondAndContinue
  | _ => .fatal

/-- handleMessage from server.go, for one wire entry.  addEventOk stands
for handler.AddEvent succeeding; the error it returns on failure is an
opaque handler error. -/
def handleMessage (cfg : MessageServerConfig) (st : ServerState)
    (senderID : String) (epoch : Int) (topic : String) (sequence : Int)
    (addEventOk : Bool) : Option (ServerState × List ServerEvent) :=
  match lookupPeer st.peers senderID with
  | none => some (st, [])
  | some peer =>
      if peer.epoch ≠ epoch then some (st, [])
      else if !peer.valid then some (st, [])
      else
        let key : TopicSenderPair := ⟨topic, senderID⟩
        if st.handlers.contains topic then
          if addEventOk then some (st, [.eventSubmitted topic senderID])
          else deregisterPeerM st peer (some .handlerError)
        else
          let pendingEntries := pendingLookup st.pendingMessages key
          if (pendingEntries.length : Int) > cfg.maxPendingMessageCountPerTopic then
            deregisterPeerM
              { st with pendingMessages := pendingErase st.pendingMessages key }
              peer (some .topicCongested)
          else
            let newPending :=
              pendingSet st.pendingMessages key
                (pendingEntries ++ [.wire senderID epoch topic sequence])
            some ({ st with pendingMessages := newPending }, [])

/-- handleRawMessage from server.go, for one local entry.  With a
handler present the entry is submitted and any error is ignored; with no
handler it is appended under (topic, serverID) and the buffer is dropped
once its length reaches MaxPendingMessageCountPerTopic. -/
def handleRawMessage (cfg : MessageServerConfig) (serverID : String)
    (st : ServerState) (topic : String) : ServerState × List ServerEvent :=
  if st.handlers.contains topic then
    (st, [.rawEventSubmitted topic])
  else
    let key : TopicSenderPair := ⟨topic, serverID⟩
    let pendingEntries := pendingLookup st.pendingMessages key
    let newEntries := pendingEntries ++ [.raw topic]
    let st1 : ServerState := { st with pendingMessages := pendingSet st.pendingMessages key newEntries }
    if (newEntries.length : Int) ≥ cfg.maxPendingMessageCountPerTopic then
      ({ st1 with pendingMessages := pendingErase st1.pendingMessages key }, [])
    else
      (st1, [])

/-- Dispatch of one buffered entry by handlePendingMessages: wire
entries go through handleMessage, raw entries through handleRawMessage. -/
def dispatchPendingEntry (cfg : MessageServerConfig) (serverID : String)
    (st : ServerState) (e : PendingMessageEntry) (addEventOk : Bool) :
    Option (ServerState × List ServerEvent) :=
  match e with
  | .wire s ep t sq => handleMessage cfg st s ep t sq addEventOk
  | .raw t => some (handleRawMessage cfg serverID st t)

/-- Dispatch of a list of buffered entries; the oracle supplies one
AddEvent outcome per entry (true when exhausted). -/
def dispatchPendingEntries (cfg : MessageServerConfig) (serverID : String) :
    ServerState → List PendingMessageEntry → List Bool →
    Option (ServerState × List ServerEvent)
  | st, [], _ => some (st, [])
  | st, e :: rest, oracle =>
      match dispatchPendingEntry cfg serverID st e (oracle.headD true) with
      | none => none
      | some (st1, evs1) =>
          match dispatchPendingEntries cfg serverID st1 rest oracle.tail with
          | none => none
          | some (st2, evs2) => some (st2, evs1 ++ evs2)

/-- The loop body of handlePendingMessages: for every key of the pending
buffer whose topic matches, dispatch its entries and delete the key. -/
def handlePendingLoop (cfg : MessageServerConfig) (serverID : String) (topic : String) :
    ServerState → List Bool → List TopicSenderPair →
    Option (ServerState × List ServerEvent)
  | st, _, [] => some (st, [])
  | st, oracle, k :: rest =>
      if k.topic = topic then
        let entries := pendingLookup st.pendingMessages k
        match dispatchPendingEntries cfg serverID st entries oracle with
        | none => none
        | some (st1, evs1) =>
            let st2 : ServerState := { st1 with pendingMessages := pendingErase st1.pendingMessages k }
            match handlePendingLoop cfg serverID topic st2 (oracle.drop entries.length) rest with
            | none => none
            | some (st3, evs3) => some (st3, evs1 ++ evs3)
      else
        handlePendingLoop cfg serverID topic st oracle rest

/-- handlePendingMessages from server.go. -/
def handlePendingMessages (cfg : MessageServerConfig) (serverID : String)
    (st : ServerState) (topic : String) (oracle : List Bool) :
    Option (ServerState × List ServerEvent) :=
  handlePendingLoop cfg serverID topic st oracle (st.pendingMessages.map (fun kv => kv.1))

/-- registerHandler from server.go: a duplicate registration panics
(none); otherwise the handler is installed and the pending entries for
the topic are drained. -/
def registerHandler (cfg : MessageServerConfig) (serverID : String)
    (st : ServerState) (topic : String) (oracle : List Bool) :
    Option (ServerState × List ServerEvent) :=
  if st.handlers.contains topic then none
  else
    handlePendingMessages cfg serverID
      { st with handlers := topic :: st.handlers } topic oracle

/-- taskOnDeregisterHandler: removing the handler for a topic is
idempotent. -/
def deregisterHandler (st : ServerState) (topic : String) : ServerState :=
  { st with handlers := st.handlers.filter (fun t => !(decide (t = topic))) }

/-- The operations of the main loop that mutate the server state. -/
inductive ServerOp where
  | opRegisterPeer (senderID : String) (epoch : Int)
  | opDeregisterPeer (peerID : String)
  | opMessage (senderID : String) (epoch : Int) (topic : String) (sequence : Int) (addEventOk : Bool)
  | opRawMessage (topic : String)
  | opRegisterHandler (topic : String) (oracle : List Bool)
  | opDeregisterHandler (topic : String)

/-- One step of the main loop. -/
def applyOp (cfg : MessageServerConfig) (serverID : String) (st : ServerState) :
    ServerOp → Option (ServerState × List ServerEvent)
  | .opRegisterPeer s e => (registerPeer cfg st s e).map (fun r => (r.state, r.events))
  | .opDeregisterPeer p => deregisterPeerByID st p
  | .opMessage s e t sq ok => handleMessage cfg st s e t sq ok
  | .opRawMessage t => some (handleRawMessage cfg serverID st t)
  | .opRegisterHandler t oracle => registerHandler cfg serverID st t oracle
  | .opDeregisterHandler t => some (deregisterHandler st t, [])

/-- Running a list of operations from a state; none when a panic was
reached. -/
def applyOps (cfg : MessageServerConfig) (serverID : String) :
    ServerState → List ServerOp → Option ServerState
  | st, [] => some st
  | st, op :: rest =>
      match applyOp cfg serverID st op with
      | none => none
      | some (st1, _) => applyOps cfg serverID st1 rest

/-- Which case of the select in SyncAddHandler and SyncRemoveHandler
fires: context cancellation, the done channel, or the global close
channel of the server. -/
inductive SyncWaitEvent where
  | ctxDone
  | doneSignal
  | closeSignal
  deriving Repr, DecidableEq

/-- The select at the end of SyncAddHandler: the global close channel
makes it return ErrPeerMessageServerClosed. -/
def syncAddHandlerWait : SyncWaitEvent → Except PError Unit
  | .ctxDone => .error .ctxCanceled
  | .doneSignal => .ok ()
  | .closeSignal => .error .serverClosed

/-- The select at the end of SyncRemoveHandler: the global close channel
makes it log and return nil. -/
def syncRemoveHandlerWait : SyncWaitEvent → Except PError Unit
  | .ctxDone => .error .ctxCanceled
  | .doneSignal => .ok ()
  | .closeSignal => .ok ()

/-- Result of cdcPeer.abort: the peer afterwards and the response that
reached the stream (none when the send failed). -/
structure AbortResult where
  peer : CDCPeer
  response : Option SendMessageResponse
  deriving Repr, DecidableEq

/-- cdcPeer.abort from server.go: panics (none) on an invalid peer;
otherwise sends errorToRPCResponse on the stream handle (sendOk tells
whether the send succeeded) and sets valid to false in a defer, so the
flag is cleared on both the success and the failure path. -/
def cdcPeerAbort (msg : PError → String) (p : CDCPeer) (err : PError)
    (sendOk : Bool) : Option AbortResult :=
  if !p.valid then none
  else
    some ⟨{ p with valid := false },
          if sendOk then some (errorToRPCResponse msg err) else none⟩

/-! ### Helper lemmas about the association-list maps -/

theorem pendingLookup_erase_self (pm : PendingMap) (k : TopicSenderPair) :
    pendingLookup (pendingErase pm k) k = [] := by
  induction pm with
  | nil => rfl
  | cons kv rest ih =>
      by_cases h : kv.1 = k
      · simpa [pendingErase, h] using ih
      · simpa [pendingErase, pendingLookup, h] using ih

theorem pendingLookup_erase_ne (pm : PendingMap) (k k' : TopicSenderPair)
    (h : k' ≠ k) : pendingLookup (pendingErase pm k) k' = pendingLookup pm k' := by
  have hkk : ¬ (k = k') := Ne.symm h
  induction pm with
  | nil => rfl
  | cons kv rest ih =>
      by_cases hk : kv.1 = k
      · have hk' : ¬ (kv.1 = k') := by rw [hk]; exact Ne.symm h
        simpa [pendingErase, pendingLookup, hk, hk', hkk] using ih
      · by_cases hk' : kv.1 = k'
        · simp [pendingErase, pendingLookup, hk, hk', h]
        · simpa [pendingErase, pendingLookup, hk, hk', hkk] using ih

theorem pendingLookup_set_self (pm : PendingMap) (k : TopicSenderPair)
    (v : List PendingMessageEntry) : pendingLookup (pendingSet pm k v) k = v := by
  unfold pendingSet
  induction pm with
  | nil => simp [pendingLookup, pendingErase]
  | cons kv rest ih =>
      by_cases h : kv.1 = k
      · simpa [pendingErase, h] using ih
      · simpa [pendingErase, pendingLookup, h] using ih

theorem pendingLookup_set_ne (pm : PendingMap) (k k' : TopicSenderPair)
    (v : List PendingMessageEntry) (h : k' ≠ k) :
    pendingLookup (pendingSet pm k v) k' = pendingLookup pm k' := by
  unfold pendingSet
  have hkk : ¬ (k = k') := Ne.symm h
  induction pm with
  | nil => simp [pendingLookup, pendingErase, hkk]
  | cons kv rest ih =>
      by_cases hk : kv.1 = k
      · have hk' : ¬ (kv.1 = k') := by rw [hk]; exact Ne.symm h
        simpa [pendingErase, pendingLookup, hk, hk', hkk] using ih
      · by_cases hk' : kv.1 = k'
        · simp [pendingErase, pendingLookup, hk, hk', h]
        · simpa [pendingErase, pendingLookup, hk, hk', hkk] using ih

theorem pendingErase_set_self (pm : PendingMap) (k : TopicSenderPair)
    (v : List PendingMessageEntry) :
    pendingErase (pendingSet pm k v) k = pendingErase pm k := by
  unfold pendingSet
  induction pm with
  | nil => simp [pendingErase]
  | cons kv rest ih =>
      by_cases h : kv.1 = k
      · simpa [pendingErase, h] using ih
      · simpa [pendingErase, h] using ih

theorem mem_pendingErase (pm : PendingMap) (k : TopicSenderPair)
    (kv : TopicSenderPair × List PendingMessageEntry)
    (h : kv ∈ pendingErase pm k) : kv ∈ pm := by
  induction pm with
  | nil => simp [pendingErase] at h
  | cons hd rest ih =>
      by_cases hh : hd.1 = k
      · simp only [pendingErase, hh, if_pos] at h
        exact List.mem_cons_of_mem _ (ih h)
      · simp only [pendingErase, hh, if_neg, not_false_iff] at h
        rcases List.mem_cons.mp h with h1 | h1
        · exact h1 ▸ List.mem_cons_self _ _
        · exact List.mem_cons_of_mem _ (ih h1)

theorem mem_pendingSet (pm : PendingMap) (k : TopicSenderPair)
    (v : List PendingMessageEntry) (kv : TopicSenderPair × List PendingMessageEntry)
    (h : kv ∈ pendingSet pm k v) : kv ∈ pm ∨ kv = (k, v) := by
  unfold pendingSet at h
  rcases List.mem_append.mp h with h1 | h1
  · exact Or.inl (mem_pendingErase pm k kv h1)
  · exact Or.inr (by simpa using h1)

/-! ### The pending-buffer invariant and its preservation -/

/-- The invariant actually maintained by the code: every key buffers at
most MaxPendingMessageCountPerTopic + 1 entries, and all entries under a
key are addressed to the topic of the key. -/
def PendingInv (cfg : MessageServerConfig) (pm : PendingMap) : Prop :=
  (∀ key, ((pendingLookup pm key).length : Int) ≤ cfg.maxPendingMessageCountPerTopic + 1) ∧
  (∀ kv ∈ pm, ∀ e ∈ kv.2, entryTopic e = kv.1.topic)

theorem pendingWf_lookup_topic (pm : PendingMap)
    (hwf : ∀ kv ∈ pm, ∀ e ∈ kv.2, entryTopic e = kv.1.topic) (k : TopicSenderPair) :
    ∀ e ∈ pendingLookup pm k, entryTopic e = k.topic := by
  induction pm with
  | nil => intro e he; simp [pendingLookup] at he
  | cons kv rest ih =>
      intro e he
      by_cases hk : kv.1 = k
      · simp only [pendingLookup, hk, if_pos] at he
        have := hwf kv (List.mem_cons_self _ _) e he
        rw [this, hk]
      · simp only [pendingLookup, hk, if_neg, not_false_iff] at he
        exact ih (fun kv1 h1 => hwf kv1 (List.mem_cons_of_mem _ h1)) e he

theorem pendingInv_lookup_topic {cfg : MessageServerConfig} {pm : PendingMap}
    (h : PendingInv cfg pm) (k : TopicSenderPair) :
    ∀ e ∈ pendingLookup pm k, entryTopic e = k.topic :=
  pendingWf_lookup_topic pm h.2 k

theorem pendingInv_erase {cfg : MessageServerConfig} {pm : PendingMap}
    (h : PendingInv cfg pm) (k : TopicSenderPair) :
    PendingInv cfg (pendingErase pm k) := by
  constructor
  · intro key
    by_cases hk : key = k
    · rw [hk, pendingLookup_erase_self]
      have h0 := h.1 k
      have : (0 : Int) ≤ ((pendingLookup pm k).length : Int) := by exact_mod_cast Nat.zero_le _
      simpa using le_trans this h0
    · rw [pendingLookup_erase_ne pm k key hk]
      exact h.1 key
  · intro kv hkv
    exact h.2 kv (mem_pendingErase pm k kv hkv)

theorem pendingInv_set {cfg : MessageServerConfig} {pm : PendingMap}
    (h : PendingInv cfg pm) (k : TopicSenderPair) (v : List PendingMessageEntry)
    (hlen : ((v.length : Int)) ≤ cfg.maxPendingMessageCountPerTopic + 1)
    (hv : ∀ e ∈ v, entryTopic e = k.topic) :
    PendingInv cfg (pendingSet pm k v) := by
  constructor
  · intro key
    by_cases hk : key = k
    · rw [hk, pendingLookup_set_self]; exact hlen
    · rw [pendingLookup_set_ne pm k key v hk]; exact h.1 key
  · intro kv hkv
    rcases mem_pendingSet pm k v kv hkv with h1 | h1
    · exact h.2 kv h1
    · rw [h1]; exact hv

theorem deregisterPeerM_eq (st : ServerState) (peer : CDCPeer) (err : Option PError) :
    deregisterPeerM st peer err = none ∨
    deregisterPeerM st peer err =
      some ({ st with peers := erasePeer st.peers peer.peerID },
            [.peerDeregistered peer.peerID err]) := by
  unfold deregisterPeerM
  cases err with
  | none => exact Or.inr rfl
  | some e =>
      by_cases hv : peer.valid
      · simp [hv]
      · simp [hv]

/-- A successful handleMessage leaves the handler table unchanged and
preserves the pending-buffer invariant. -/
theorem inv_handleMessage {cfg : MessageServerConfig} {st : ServerState}
    {s : String} {ep : Int} {t : String} {sq : Int} {ok : Bool}
    {st1 : ServerState} {evs : List ServerEvent}
    (hinv : PendingInv cfg st.pendingMessages)
    (h : handleMessage cfg st s ep t sq ok = some (st1, evs)) :
    PendingInv cfg st1.pendingMessages ∧ st1.handlers = st.handlers := by
  unfold handleMessage at h
  cases hp : lookupPeer st.peers s with
  | none =>
      rw [hp] at h
      simp only [Option.some.injEq, Prod.mk.injEq] at h
      rw [← h.1]
      exact ⟨hinv, rfl⟩
  | some peer =>
      rw [hp] at h
      dsimp only at h
      by_cases he : peer.epoch ≠ ep
      · rw [if_pos he] at h
        simp only [Option.some.injEq, Prod.mk.injEq] at h
        rw [← h.1]
        exact ⟨hinv, rfl⟩
      · rw [if_neg he] at h
        by_cases hv : (!peer.valid) = true
        · rw [if_pos hv] at h
          simp only [Option.some.injEq, Prod.mk.injEq] at h
          rw [← h.1]
          exact ⟨hinv, rfl⟩
        · rw [if_neg hv] at h
          by_cases hh : st.handlers.contains t = true
          · rw [if_pos hh] at h
            by_cases hok : ok = true
            · rw [if_pos hok] at h
              simp only [Option.some.injEq, Prod.mk.injEq] at h
              rw [← h.1]
              exact ⟨hinv, rfl⟩
            · rw [if_neg hok] at h
              rcases deregisterPeerM_eq st peer (some .handlerError) with hd | hd <;>
                rw [hd] at h
              · simp at h
              · simp only [Option.some.injEq, Prod.mk.injEq] at h
                rw [← h.1]
                exact ⟨hinv, rfl⟩
          · rw [if_neg hh] at h
            by_cases hc : ((pendingLookup st.pendingMessages ⟨t, s⟩).length : Int) >
                cfg.maxPendingMessageCountPerTopic
            · rw [if_pos hc] at h
              rcases deregisterPeerM_eq
                  { st with pendingMessages := pendingErase st.pendingMessages ⟨t, s⟩ }
                  peer (some .topicCongested) with hd | hd <;> rw [hd] at h
              · simp at h
              · simp only [Option.some.injEq, Prod.mk.injEq] at h
                rw [← h.1]
                exact ⟨pendingInv_erase hinv ⟨t, s⟩, rfl⟩
            · rw [if_neg hc] at h
              simp only [Option.some.injEq, Prod.mk.injEq] at h
              rw [← h.1]
              refine ⟨pendingInv_set hinv ⟨t, s⟩ _ ?_ ?_, rfl⟩
              · push_neg at hc
                have hl : ((pendingLookup st.pendingMessages ⟨t, s⟩ ++
                    [PendingMessageEntry.wire s ep t sq]).length : Int) =
                    ((pendingLookup st.pendingMessages ⟨t, s⟩).length : Int) + 1 := by
                  simp
                rw [hl]
                omega
              · intro e he2
                rcases List.mem_append.mp he2 with h1 | h1
                · exact pendingInv_lookup_topic hinv ⟨t, s⟩ e h1
                · simp only [List.mem_singleton] at h1
                  rw [h1]
                  rfl

/-- handleRawMessage leaves the handler table unchanged and preserves
the pending-buffer invariant. -/
theorem inv_handleRawMessage {cfg : MessageServerConfig} {sid : String}
    {st : ServerState} {t : String}
    (hinv : PendingInv cfg st.pendingMessages) :
    PendingInv cfg (handleRawMessage cfg sid st t).1.pendingMessages ∧
    (handleRawMessage cfg sid st t).1.handlers = st.handlers := by
  unfold handleRawMessage
  by_cases hh : st.handlers.contains t = true
  · rw [if_pos hh]
    exact ⟨hinv, rfl⟩
  · rw [if_neg hh]
    by_cases hc : (((pendingLookup st.pendingMessages ⟨t, sid⟩ ++
        [PendingMessageEntry.raw t]).length : Int)) ≥ cfg.maxPendingMessageCountPerTopic
    · rw [if_pos hc]
      refine ⟨?_, rfl⟩
      show PendingInv cfg (pendingErase (pendingSet st.pendingMessages ⟨t, sid⟩ _) ⟨t, sid⟩)
      rw [pendingErase_set_self]
      exact pendingInv_erase hinv ⟨t, sid⟩
    · rw [if_neg hc]
      refine ⟨pendingInv_set hinv ⟨t, sid⟩ _ ?_ ?_, rfl⟩
      · push_neg at hc
        have hl : ((pendingLookup st.pendingMessages ⟨t, sid⟩ ++
            [PendingMessageEntry.raw t]).length : Int) =
            ((pendingLookup st.pendingMessages ⟨t, sid⟩).length : Int) + 1 := by
          simp
        rw [hl] at hc ⊢
        omega
      · intro e he2
        rcases List.mem_append.mp he2 with h1 | h1
        · exact pendingInv_lookup_topic hinv ⟨t, sid⟩ e h1
        · simp only [List.mem_singleton] at h1
          rw [h1]
          rfl

/-- When the topic of the entry has a handler, a successful
handleMessage leaves both the pending buffer and the handler table
unchanged (only the peer map may change). -/
theorem handleMessage_contains_frame {cfg : MessageServerConfig} {st : ServerState}
    {s : String} {ep : Int} {t : String} {sq : Int} {ok : Bool}
    {st1 : ServerState} {evs : List ServerEvent}
    (hc : st.handlers.contains t = true)
    (h : handleMessage cfg st s ep t sq ok = some (st1, evs)) :
    st1.pendingMessages = st.pendingMessages ∧ st1.handlers = st.handlers := by
  unfold handleMessage at h
  cases hp : lookupPeer st.peers s with
  | none =>
      rw [hp] at h
      simp only [Option.some.injEq, Prod.mk.injEq] at h
      rw [← h.1]
      exact ⟨rfl, rfl⟩
  | some peer =>
      rw [hp] at h
      dsimp only at h
      by_cases he : peer.epoch ≠ ep
      · rw [if_pos he] at h
        simp only [Option.some.injEq, Prod.mk.injEq] at h
        rw [← h.1]
        exact ⟨rfl, rfl⟩
      · rw [if_neg he] at h
        by_cases hv : (!peer.valid) = true
        · rw [if_pos hv] at h
          simp only [Option.some.injEq, Prod.mk.injEq] at h
          rw [← h.1]
          exact ⟨rfl, rfl⟩
        · rw [if_neg hv, if_pos hc] at h
          by_cases hok : ok = true
          · rw [if_pos hok] at h
            simp only [Option.some.injEq, Prod.mk.injEq] at h
            rw [← h.1]
            exact ⟨rfl, rfl⟩
          · rw [if_neg hok] at h
            rcases deregisterPeerM_eq st peer (some .handlerError) with hd | hd <;>
              rw [hd] at h
            · simp at h
            · simp only [Option.some.injEq, Prod.mk.injEq] at h
              rw [← h.1]
              exact ⟨rfl, rfl⟩

theorem handleRawMessage_contains {cfg : MessageServerConfig} {sid : String}
    {st : ServerState} {t : String} (hc : st.handlers.contains t = true) :
    handleRawMessage cfg sid st t = (st, [.rawEventSubmitted t]) := by
  unfold handleRawMessage
  rw [if_pos hc]

/-- Dispatching buffered entries whose topics all have handlers leaves
the pending buffer and the handler table unchanged. -/
theorem dispatchPendingEntries_frame {cfg : MessageServerConfig} {sid : String} :
    ∀ (entries : List PendingMessageEntry) (oracle : List Bool) (st st1 : ServerState)
      (evs : List ServerEvent),
      (∀ e ∈ entries, st.handlers.contains (entryTopic e) = true) →
      dispatchPendingEntries cfg sid st entries oracle = some (st1, evs) →
      st1.pendingMessages = st.pendingMessages ∧ st1.handlers = st.handlers := by
  intro entries
  induction entries with
  | nil =>
      intro oracle st st1 evs _ h
      simp only [dispatchPendingEntries, Option.some.injEq, Prod.mk.injEq] at h
      rw [← h.1]
      exact ⟨rfl, rfl⟩
  | cons e rest ih =>
      intro oracle st st1 evs hall h
      unfold dispatchPendingEntries at h
      cases hd : dispatchPendingEntry cfg sid st e (oracle.headD true) with
      | none => rw [hd] at h; simp at h
      | some p =>
          rw [hd] at h
          dsimp only at h
          obtain ⟨stA, evsA⟩ := p
          have hframeA : stA.pendingMessages = st.pendingMessages ∧
              stA.handlers = st.handlers := by
            cases e with
            | wire s2 ep2 t2 sq2 =>
                exact handleMessage_contains_frame
                  (hall _ (List.mem_cons_self _ _)) hd
            | raw t2 =>
                have hc2 : st.handlers.contains t2 = true :=
                  hall _ (List.mem_cons_self _ _)
                simp only [dispatchPendingEntry] at hd
                rw [handleRawMessage_contains hc2] at hd
                simp only [Option.some.injEq, Prod.mk.injEq] at hd
                rw [← hd.1]
                exact ⟨rfl, rfl⟩
          cases hr : dispatchPendingEntries cfg sid stA rest oracle.tail with
          | none => rw [hr] at h; simp at h
          | some q =>
              rw [hr] at h
              dsimp only at h
              obtain ⟨stB, evsB⟩ := q
              have hallA : ∀ e2 ∈ rest, stA.handlers.contains (entryTopic e2) = true := by
                intro e2 he2
                rw [hframeA.2]
                exact hall _ (List.mem_cons_of_mem _ he2)
              have hframeB := ih oracle.tail stA stB evsB hallA hr
              simp only [Option.some.injEq, Prod.mk.injEq] at h
              rw [← h.1]
              exact ⟨hframeB.1.trans hframeA.1, hframeB.2.trans hframeA.2⟩

/-- The drain loop of handlePendingMessages preserves the pending-buffer
invariant when the drained topic has a handler. -/
theorem handlePendingLoop_inv {cfg : MessageServerConfig} {sid topic : String} :
    ∀ (keys : List TopicSenderPair) (st : ServerState) (oracle : List Bool)
      (st1 : ServerState) (evs : List ServerEvent),
      PendingInv cfg st.pendingMessages →
      st.handlers.contains topic = true →
      handlePendingLoop cfg sid topic st oracle keys = some (st1, evs) →
      PendingInv cfg st1.pendingMessages := by
  intro keys
  induction keys with
  | nil =>
      intro st oracle st1 evs hinv _ h
      simp only [handlePendingLoop, Option.some.injEq, Prod.mk.injEq] at h
      rw [← h.1]
      exact hinv
  | cons k rest ih =>
      intro st oracle st1 evs hinv hc h
      unfold handlePendingLoop at h
      by_cases hk : k.topic = topic
      · rw [if_pos hk] at h
        dsimp only at h
        cases hd : dispatchPendingEntries cfg sid st
            (pendingLookup st.pendingMessages k) oracle with
        | none => rw [hd] at h; simp at h
        | some p =>
            rw [hd] at h
            dsimp only at h
            obtain ⟨stA, evsA⟩ := p
            have hall : ∀ e ∈ pendingLookup st.pendingMessages k,
                st.handlers.contains (entryTopic e) = true := by
              intro e he
              rw [pendingInv_lookup_topic hinv k e he, hk]
              exact hc
            have hframeA := dispatchPendingEntries_frame _ _ _ _ _ hall hd
            cases hr : handlePendingLoop cfg sid topic
                ({ stA with pendingMessages := (pendingErase stA.pendingMessages k) })
                (oracle.drop (pendingLookup st.pendingMessages k).length) rest with
            | none => rw [hr] at h; simp at h
            | some q =>
                rw [hr] at h
                dsimp only at h
                obtain ⟨stB, evsB⟩ := q
                have hinvA : PendingInv cfg (pendingErase stA.pendingMessages k) := by
                  rw [hframeA.1]
                  exact pendingInv_erase hinv k
                have hcA : stA.handlers.contains topic = true := by
                  rw [hframeA.2]
                  exact hc
                have := ih ({ stA with pendingMessages := (pendingErase stA.pendingMessages k) })
                  (oracle.drop (pendingLookup st.pendingMessages k).length) stB evsB hinvA hcA hr
                simp only [Option.some.injEq, Prod.mk.injEq] at h
                rw [← h.1]
                exact this
      · rw [if_neg hk] at h
        exact ih _ _ _ _ hinv hc h

/-- registerHandler preserves the pending-buffer invariant. -/
theorem registerHandler_inv {cfg : MessageServerConfig} {sid : String}
    {st : ServerState} {t : String} {oracle : List Bool}
    {st1 : ServerState} {evs : List ServerEvent}
    (hinv : PendingInv cfg st.pendingMessages)
    (h : registerHandler cfg sid st t oracle = some (st1, evs)) :
    PendingInv cfg st1.pendingMessages := by
  unfold registerHandler at h
  by_cases hh : st.handlers.contains t = true
  · rw [if_pos hh] at h
    simp at h
  · rw [if_neg hh] at h
    unfold handlePendingMessages at h
    refine handlePendingLoop_inv _ _ _ _ _ ?_ ?_ h
    · exact hinv
    · simp [List.contains_cons]

/-- registerPeer never touches the pending buffer, the handler table or
the ack table. -/
theorem registerPeer_frame {cfg : MessageServerConfig} {st : ServerState}
    {s : String} {ep : Int} {r : RegisterPeerResult}
    (h : registerPeer cfg st s ep = some r) :
    r.state.pendingMessages = st.pendingMessages ∧
    r.state.handlers = st.handlers ∧ r.state.acks = st.acks := by
  unfold registerPeer at h
  cases hp : lookupPeer st.peers s with
  | none =>
      rw [hp] at h
      dsimp only at h
      by_cases hcnt : ((st.peers.length : Int)) > cfg.maxPeerCount
      · rw [if_pos hcnt] at h
        simp only [Option.some.injEq] at h
        rw [← h]
        exact ⟨rfl, rfl, rfl⟩
      · rw [if_neg hcnt] at h
        simp only [Option.some.injEq] at h
        rw [← h]
        exact ⟨rfl, rfl, rfl⟩
  | some peer =>
      rw [hp] at h
      dsimp only at h
      by_cases h1 : peer.epoch > ep
      · rw [if_pos h1] at h
        simp only [Option.some.injEq] at h
        rw [← h]
        exact ⟨rfl, rfl, rfl⟩
      · rw [if_neg h1] at h
        by_cases h2 : peer.epoch < ep
        · rw [if_pos h2] at h
          rcases deregisterPeerM_eq st peer (some (.staleConnection peer.epoch ep)) with
            hd | hd <;> rw [hd] at h
          · simp at h
          · dsimp only at h
            simp only [Option.some.injEq] at h
            rw [← h]
            exact ⟨rfl, rfl, rfl⟩
        · rw [if_neg h2] at h
          simp only [Option.some.injEq] at h
          rw [← h]
          exact ⟨rfl, rfl, rfl⟩

/-- deregisterPeerByID never touches the pending buffer, the handler
table or the ack table. -/
theorem deregisterPeerByID_frame {st : ServerState} {p : String}
    {st1 : ServerState} {evs : List ServerEvent}
    (h : deregisterPeerByID st p = some (st1, evs)) :
    st1.pendingMessages = st.pendingMessages ∧
    st1.handlers = st.handlers ∧ st1.acks = st.acks := by
  unfold deregisterPeerByID at h
  cases hp : lookupPeer st.peers p with
  | none =>
      rw [hp] at h
      simp only [Option.some.injEq, Prod.mk.injEq] at h
      rw [← h.1]
      exact ⟨rfl, rfl, rfl⟩
  | some peer =>
      rw [hp] at h
      dsimp only at h
      rcases deregisterPeerM_eq st peer none with hd | hd <;> rw [hd] at h
      · simp at h
      · simp only [Option.some.injEq, Prod.mk.injEq] at h
        rw [← h.1]
        exact ⟨rfl, rfl, rfl⟩

/-- Every successful step of the main loop preserves the pending-buffer
invariant. -/
theorem applyOp_inv {cfg : MessageServerConfig} {sid : String} {st : ServerState}
    {op : ServerOp} {st1 : ServerState} {evs : List ServerEvent}
    (hinv : PendingInv cfg st.pendingMessages)
    (h : applyOp cfg sid st op = some (st1, evs)) :
    PendingInv cfg st1.pendingMessages := by
  cases op with
  | opRegisterPeer s e =>
      have h2 : (registerPeer cfg st s e).map (fun r => (r.state, r.events)) =
          some (st1, evs) := h
      cases hr : registerPeer cfg st s e with
      | none => rw [hr] at h2; simp at h2
      | some r =>
          rw [hr] at h2
          simp only [Option.map, Option.some.injEq, Prod.mk.injEq] at h2
          have hf := registerPeer_frame hr
          rw [← h2.1, hf.1]
          exact hinv
  | opDeregisterPeer p =>
      have h2 : deregisterPeerByID st p = some (st1, evs) := h
      have hf := deregisterPeerByID_frame h2
      rw [hf.1]
      exact hinv
  | opMessage s e t sq ok =>
      exact (inv_handleMessage hinv h).1
  | opRawMessage t =>
      have h2 : handleRawMessage cfg sid st t = (st1, evs) := by
        have h3 : some (handleRawMessage cfg sid st t) = some (st1, evs) := h
        simpa using h3
      have := (@inv_handleRawMessage cfg sid st t hinv).1
      rw [h2] at this
      exact this
  | opRegisterHandler t oracle =>
      exact registerHandler_inv hinv h
  | opDeregisterHandler t =>
      have h2 : some ((deregisterHandler st t, []) :
          ServerState × List ServerEvent) = some (st1, evs) := h
      simp only [Option.some.injEq, Prod.mk.injEq] at h2
      rw [← h2.1]
      exact hinv

/-- Running any sequence of operations preserves the pending-buffer
invariant. -/
theorem applyOps_inv {cfg : MessageServerConfig} {sid : String} :
    ∀ (ops : List ServerOp) (st st1 : ServerState),
      PendingInv cfg st.pendingMessages →
      applyOps cfg sid st ops = some st1 →
      PendingInv cfg st1.pendingMessages := by
  intro ops
  induction ops with
  | nil =>
      intro st st1 hinv h
      simp only [applyOps, Option.some.injEq] at h
      rw [← h]
      exact hinv
  | cons op rest ih =>
      intro st st1 hinv h
      unfold applyOps at h
      cases hs : applyOp cfg sid st op with
      | none => rw [hs] at h; simp at h
      | some p =>
          rw [hs] at h
          dsimp only at h
          exact ih p.1 st1 (applyOp_inv hinv hs) h

/-- The congestion branch of handleMessage: a wire message for a topic
with no handler, from a registered valid peer with a matching epoch,
arriving when the pending count already exceeds the configured maximum,
deletes the buffer for the key and deregisters the peer with
ErrPeerMessageTopicCongested, emitting exactly that one event. -/
theorem handleMessage_overflow {cfg : MessageServerConfig} {st : ServerState}
    {s : String} {ep : Int} {t : String} {sq : Int} {ok : Bool} {peer : CDCPeer}
    (hp : lookupPeer st.peers s = some peer) (he : peer.epoch = ep)
    (hv : peer.valid = true) (hh : st.handlers.contains t = false)
    (hc : ((pendingLookup st.pendingMessages ⟨t, s⟩).length : Int) >
      cfg.maxPendingMessageCountPerTopic) :
    handleMessage cfg st s ep t sq ok =
      some ({ st with pendingMessages := (pendingErase st.pendingMessages ⟨t, s⟩),
                      peers := (erasePeer st.peers peer.peerID) },
            [.peerDeregistered peer.peerID (some .topicCongested)]) := by
  unfold handleMessage
  rw [hp]
  dsimp only
  rw [if_neg (show ¬ peer.epoch ≠ ep from fun hne => hne he)]
  rw [if_neg (show ¬ ((!peer.valid) = true) by rw [hv]; simp)]
  rw [if_neg (show ¬ (st.handlers.contains t = true) by rw [hh]; simp)]
  rw [if_pos hc]
  simp [deregisterPeerM, hv]

/-- The drop branch of the handler wrapper: a sequence at or below the
stored last ack is skipped with no callback, no ack update and no
error. -/
theorem poolEventHandler_drop {acks : AckTable} {s t : String} {seq : Int}
    {dOk : Bool} {fnR : Except PError Unit} (h : seq ≤ acksGet acks s t) :
    poolEventHandler acks s t seq dOk fnR = ⟨.ok (), acks, false⟩ := by
  unfold poolEventHandler
  dsimp only
  rw [if_pos (show acksGet acks s t ≥ seq from h)]

/-- Replaying entries that are all at or below the stored last ack
leaves the ack table unchanged and never invokes the callback. -/
theorem replayEntries_go (acks : AckTable) (s t : String) :
    ∀ (entries : List (Int × Bool × Except PError Unit)) (n : Nat),
      (∀ e ∈ entries, e.1 ≤ acksGet acks s t) →
      List.foldl (fun acc e =>
        let out := poolEventHandler acc.1 s t e.1 e.2.1 e.2.2
        (out.acks, acc.2 + (if out.invoked then 1 else 0))) (acks, n) entries = (acks, n) := by
  intro entries
  induction entries with
  | nil => intro n _; rfl
  | cons e rest ih =>
      intro n h
      have hd := @poolEventHandler_drop acks s t e.1 e.2.1 e.2.2
        (h e (List.mem_cons_self _ _))
      rw [List.foldl_cons]
      dsimp only
      rw [hd]
      simpa using ih n (fun e2 he2 => h e2 (List.mem_cons_of_mem _ he2))

theorem lookupPeer_erase_self (peers : PeerMap) (id : String) :
    lookupPeer (erasePeer peers id) id = none := by
  induction peers with
  | nil => rfl
  | cons kv rest ih =>
      by_cases h : kv.1 = id
      · simpa [erasePeer, h] using ih
      · simpa [erasePeer, lookupPeer, h] using ih

/-! ### Claim theorems -/

/-- C1: in the handler wrapper, when the stored lastAck is not the
initAck sentinel, the message is not a duplicate, and its sequence
exceeds lastAck + 1, the wrapper returns ErrDataLost(topic, lastAck+1)
without invoking the callback and without touching the ack table, and
the OnExit hook turns such an error into a deregister-handler task for
the topic. -/
theorem c1_data_loss_detected (acks : AckTable) (senderID topic : String)
    (sequence : Int) (decodeOk : Bool) (fnResult : Except PError Unit)
    (h1 : acksGet acks senderID topic ≠ initAck)
    (h2 : sequence > acksGet acks senderID topic)
    (h3 : sequence > acksGet acks senderID topic + 1) :
    poolEventHandler acks senderID topic sequence decodeOk fnResult =
      ⟨.error (.dataLost topic (acksGet acks senderID topic + 1)), acks, false⟩ ∧
    handlerOnExit topic (.dataLost topic (acksGet acks senderID topic + 1)) =
      .deregisterHandlerTask topic := by
  constructor
  · unfold poolEventHandler
    dsimp only
    rw [if_neg (show ¬ (acksGet acks senderID topic ≥ sequence) from not_le.mpr h2)]
    rw [if_pos ⟨h1, h3⟩]
  · rfl

theorem c1_witness :
    acksGet [(("s", "t"), 2)] "s" "t" ≠ initAck ∧
    (4 : Int) > acksGet [(("s", "t"), 2)] "s" "t" ∧
    (4 : Int) > acksGet [(("s", "t"), 2)] "s" "t" + 1 ∧
    poolEventHandler [(("s", "t"), 2)] "s" "t" 4 true (.ok ()) =
      ⟨.error (.dataLost "t" 3), [(("s", "t"), 2)], false⟩ :=
  ⟨by decide, by decide, by decide,
    (c1_data_loss_detected [(("s", "t"), 2)] "s" "t" 4 true (.ok ())
      (by decide) (by decide) (by decide)).1⟩

/-- C2: a message whose sequence is at or below the stored lastAck is
dropped: no callback invocation, unchanged ack table, and a nil return;
consequently replaying any list of already-acked entries yields zero
invocations and leaves the ack table unchanged. -/
theorem c2_duplicates_dropped (acks : AckTable) (senderID topic : String) :
    (∀ (sequence : Int) (decodeOk : Bool) (fnResult : Except PError Unit),
      sequence ≤ acksGet acks senderID topic →
      poolEventHandler acks senderID topic sequence decodeOk fnResult =
        ⟨.ok (), acks, false⟩) ∧
    (∀ entries : List (Int × Bool × Except PError Unit),
      (∀ e ∈ entries, e.1 ≤ acksGet acks senderID topic) →
      replayEntries acks senderID topic entries = (acks, 0)) := by
  constructor
  · intro sequence decodeOk fnResult h
    exact poolEventHandler_drop h
  · intro entries h
    exact replayEntries_go acks senderID topic entries 0 h

theorem c2_witness :
    ((2 : Int) ≤ acksGet [(("s", "t"), 2)] "s" "t" ∧
      poolEventHandler [(("s", "t"), 2)] "s" "t" 2 true (.ok ()) =
        ⟨.ok (), [(("s", "t"), 2)], false⟩) ∧
    replayEntries [(("s", "t"), 2)] "s" "t" [(1, true, .ok ()), (2, true, .ok ())] =
      ([(("s", "t"), 2)], 0) :=
  ⟨⟨by decide,
      (c2_duplicates_dropped [(("s", "t"), 2)] "s" "t").1 2 true (.ok ()) (by decide)⟩,
    (c2_duplicates_dropped [(("s", "t"), 2)] "s" "t").2
      [(1, true, .ok ()), (2, true, .ok ())] (by decide)⟩

/-- C7: errorToRPCResponse maps congestion errors to CONGESTED, stale
connections to STALE_CONNECTION, receiver mismatches to
CAPTURE_ID_MISMATCH and everything else to UNKNOWN, always carrying the
error message. -/
theorem c7_exit_reason_mapping (msg : PError → String) (err : PError) :
    errorToRPCResponse msg err = ⟨[], specExitReason err, msg err⟩ := by
  cases err <;> rfl

/-- C8 counterexample: when the global close channel fires,
SyncRemoveHandler does not return ErrServerClosed (it returns nil), so
the claim that both waiting calls return ErrServerClosed is false. -/
theorem c8_counterexample :
    syncRemoveHandlerWait .closeSignal ≠ Except.error PError.serverClosed := by
  decide

/-- C8 (amended): when the global close channel is closed before the
done signal and the context is not cancelled, SyncAddHandler returns
ErrServerClosed while SyncRemoveHandler logs and returns nil. -/
theorem c8_close_channel_behavior :
    syncAddHandlerWait .closeSignal = .error .serverClosed ∧
    syncRemoveHandlerWait .closeSignal = .ok () :=
  ⟨rfl, rfl⟩

/-- C9: aborting a valid peer always leaves the peer invalid, whether or
not the error response could be sent on the stream handle. -/
theorem c9_abort_invalidates (msg : PError → String) (p : CDCPeer) (err : PError)
    (sendOk : Bool) (h : p.valid = true) :
    (cdcPeerAbort msg p err sendOk).map (fun r => r.peer.valid) = some false := by
  unfold cdcPeerAbort
  rw [if_neg (show ¬ ((!p.valid) = true) by rw [h]; simp)]
  rfl

theorem c9_witness :
    (⟨"p", 3, true⟩ : CDCPeer).valid = true ∧
    (cdcPeerAbort (fun _ => "") ⟨"p", 3, true⟩ .serverClosed false).map
      (fun r => r.peer.valid) = some false :=
  ⟨rfl, c9_abort_invalidates (fun _ => "") ⟨"p", 3, true⟩ .serverClosed false rfl⟩

/-- C4: epoch arbitration in registerPeer when a peer already exists
for the sender: a larger stored epoch rejects the incoming stream with
ErrStaleConnection(E, Estored) and leaves the registry unchanged; a
smaller stored epoch deregisters the stored peer with
ErrStaleConnection(Estored, E) and installs the new peer; an equal epoch
rejects the incoming stream with ErrDuplicateConnection(E) and leaves
the registry unchanged. -/
theorem c4_epoch_arbitration (cfg : MessageServerConfig) (st : ServerState)
    (senderID : String) (epoch : Int) (peer : CDCPeer)
    (hp : lookupPeer st.peers senderID = some peer)
    (hv : peer.valid = true) :
    (peer.epoch > epoch →
      registerPeer cfg st senderID epoch =
        some ⟨.error (.staleConnection epoch peer.epoch), st, []⟩) ∧
    (peer.epoch < epoch →
      registerPeer cfg st senderID epoch =
        some ⟨.ok (),
          { st with peers := (insertPeer (erasePeer st.peers peer.peerID) senderID
              (newCDCPeer senderID epoch)) },
          [.peerDeregistered peer.peerID (some (.staleConnection peer.epoch epoch))]⟩) ∧
    (peer.epoch = epoch →
      registerPeer cfg st senderID epoch =
        some ⟨.error (.duplicateConnection epoch), st, []⟩) := by
  refine ⟨fun h1 => ?_, fun h2 => ?_, fun h3 => ?_⟩
  · unfold registerPeer
    rw [hp]
    dsimp only
    rw [if_pos h1]
  · unfold registerPeer
    rw [hp]
    dsimp only
    rw [if_neg (lt_asymm h2), if_pos h2]
    simp [deregisterPeerM, hv]
  · unfold registerPeer
    rw [hp]
    dsimp only
    rw [if_neg (show ¬ peer.epoch > epoch by rw [h3]; exact lt_irrefl _)]
    rw [if_neg (show ¬ peer.epoch < epoch by rw [h3]; exact lt_irrefl _)]

theorem c4_witness :
    lookupPeer [("p", ⟨"p", 5, true⟩)] "p" = some ⟨"p", 5, true⟩ ∧
    (⟨"p", 5, true⟩ : CDCPeer).valid = true ∧
    ((5 : Int) < 7) ∧
    registerPeer ⟨4, 10⟩ ⟨[("p", ⟨"p", 5, true⟩)], [], [], []⟩ "p" 7 =
      some ⟨.ok (), ⟨[("p", ⟨"p", 7, true⟩)], [], [], []⟩,
        [.peerDeregistered "p" (some (.staleConnection 5 7))]⟩ :=
  ⟨by decide, rfl, by decide,
    (c4_epoch_arbitration ⟨4, 10⟩ ⟨[("p", ⟨"p", 5, true⟩)], [], [], []⟩ "p" 7
      ⟨"p", 5, true⟩ (by decide) rfl).2.1 (by decide)⟩

/-- C6 counterexample: with MaxPeerCount = 1 and exactly one connected
peer (so the peer count equals MaxPeerCount, satisfying the claimed
trigger condition), registerPeer for a fresh sender succeeds and
installs a second peer instead of returning ErrTooManyPeers; moreover a
TooManyPeers error from registerPeer is fatal to the run loop rather
than answered with an UNKNOWN response. -/
theorem c6_counterexample :
    (((([("a", (⟨"a", 1, true⟩ : CDCPeer))] : PeerMap).length : Int) ≥
        (⟨4, 1⟩ : MessageServerConfig).maxPeerCount) ∧
      lookupPeer [("a", ⟨"a", 1, true⟩)] "b" = none ∧
      registerPeer ⟨4, 1⟩ ⟨[("a", ⟨"a", 1, true⟩)], [], [], []⟩ "b" 5 =
        some ⟨.ok (), ⟨[("a", ⟨"a", 1, true⟩), ("b", ⟨"b", 5, true⟩)], [], [], []⟩, []⟩) ∧
    registerPeerErrorDisposition (.tooManyPeers 1) = .fatal := by
  decide

/-- C6 (amended): with no existing peer for the sender, registerPeer
returns ErrTooManyPeers and installs nothing only when the current peer
count strictly exceeds MaxPeerCount (at a count equal to MaxPeerCount a
new peer is still installed), and the run loop treats ErrTooManyPeers as
fatal, so no UNKNOWN response is sent from that path; with the count at
or below MaxPeerCount the new peer is installed and the call succeeds. -/
theorem c6_too_many_peers (cfg : MessageServerConfig) (st : ServerState)
    (senderID : String) (epoch : Int)
    (hp : lookupPeer st.peers senderID = none) :
    ((st.peers.length : Int) > cfg.maxPeerCount →
      registerPeer cfg st senderID epoch =
        some ⟨.error (.tooManyPeers st.peers.length), st, []⟩ ∧
      registerPeerErrorDisposition (.tooManyPeers st.peers.length) = .fatal) ∧
    ((st.peers.length : Int) ≤ cfg.maxPeerCount →
      registerPeer cfg st senderID epoch =
        some ⟨.ok (),
          { st with peers := (insertPeer st.peers senderID (newCDCPeer senderID epoch)) },
          []⟩) := by
  constructor
  · intro h1
    refine ⟨?_, rfl⟩
    unfold registerPeer
    rw [hp]
    dsimp only
    rw [if_pos h1]
  · intro h2
    unfold registerPeer
    rw [hp]
    dsimp only
    rw [if_neg (not_lt.mpr h2)]

theorem c6_witness :
    lookupPeer [("a", (⟨"a", 1, true⟩ : CDCPeer))] "b" = none ∧
    ((([("a", (⟨"a", 1, true⟩ : CDCPeer))] : PeerMap).length : Int) >
      (⟨4, 0⟩ : MessageServerConfig).maxPeerCount) ∧
    registerPeer ⟨4, 0⟩ ⟨[("a", ⟨"a", 1, true⟩)], [], [], []⟩ "b" 5 =
      some ⟨.error (.tooManyPeers 1), ⟨[("a", ⟨"a", 1, true⟩)], [], [], []⟩, []⟩ ∧
    registerPeerErrorDisposition (.tooManyPeers 1) = .fatal :=
  ⟨by decide, by decide,
    ((c6_too_many_peers ⟨4, 0⟩ ⟨[("a", ⟨"a", 1, true⟩)], [], [], []⟩ "b" 5
      (by decide)).1 (by decide)).1,
    ((c6_too_many_peers ⟨4, 0⟩ ⟨[("a", ⟨"a", 1, true⟩)], [], [], []⟩ "b" 5
      (by decide)).1 (by decide)).2⟩

/-- C10: deregistering a peer removes it from the peer map but leaves
the ack table untouched; after the same sender registers again (with any
epoch), messages at or below the pre-disconnect lastAck are still
dropped as duplicates by the handler wrapper. -/
theorem c10_deregister_keeps_acks (cfg : MessageServerConfig) (st : ServerState)
    (peer : CDCPeer) (err : Option PError) (st1 : ServerState)
    (evs : List ServerEvent)
    (h : deregisterPeerM st peer err = some (st1, evs)) :
    st1.acks = st.acks ∧
    lookupPeer st1.peers peer.peerID = none ∧
    ∀ (epoch : Int) (r : RegisterPeerResult),
      registerPeer cfg st1 peer.peerID epoch = some r →
      r.state.acks = st.acks ∧
      ∀ (topic : String) (sequence : Int) (decodeOk : Bool)
          (fnResult : Except PError Unit),
        sequence ≤ acksGet st.acks peer.peerID topic →
        poolEventHandler r.state.acks peer.peerID topic sequence decodeOk fnResult =
          ⟨.ok (), r.state.acks, false⟩ := by
  rcases deregisterPeerM_eq st peer err with hd | hd
  · rw [hd] at h
    simp at h
  · rw [hd] at h
    simp only [Option.some.injEq, Prod.mk.injEq] at h
    rw [← h.1]
    refine ⟨rfl, lookupPeer_erase_self st.peers peer.peerID, ?_⟩
    intro epoch r hr
    have hacks : r.state.acks = st.acks := (registerPeer_frame hr).2.2
    refine ⟨hacks, ?_⟩
    intro topic sequence decodeOk fnResult hseq
    rw [hacks]
    exact poolEventHandler_drop hseq

theorem c10_witness :
    deregisterPeerM ⟨[("p", ⟨"p", 1, true⟩)], [], [], [(("p", "t"), 2)]⟩
        ⟨"p", 1, true⟩ none =
      some (⟨[], [], [], [(("p", "t"), 2)]⟩, [.peerDeregistered "p" none]) ∧
    registerPeer ⟨4, 10⟩ ⟨[], [], [], [(("p", "t"), 2)]⟩ "p" 2 =
      some ⟨.ok (), ⟨[("p", ⟨"p", 2, true⟩)], [], [], [(("p", "t"), 2)]⟩, []⟩ ∧
    ((2 : Int) ≤ acksGet [(("p", "t"), 2)] "p" "t") ∧
    poolEventHandler [(("p", "t"), 2)] "p" "t" 2 true (.ok ()) =
      ⟨.ok (), [(("p", "t"), 2)], false⟩ :=
  ⟨by decide, by decide, by decide,
    ((c10_deregister_keeps_acks ⟨4, 10⟩
        ⟨[("p", ⟨"p", 1, true⟩)], [], [], [(("p", "t"), 2)]⟩ ⟨"p", 1, true⟩ none
        ⟨[], [], [], [(("p", "t"), 2)]⟩ [.peerDeregistered "p" none]
        (by decide)).2.2 2
        ⟨.ok (), ⟨[("p", ⟨"p", 2, true⟩)], [], [], [(("p", "t"), 2)]⟩, []⟩
        (by decide)).2 "t" 2 true (.ok ()) (by decide)⟩

/-- C5: when a message arrives for a topic with no handler and the
pending count for its key already exceeds MaxPendingMessageCountPerTopic,
a remote (wire) message makes the server delete the buffer for the key
and deregister the sending peer with ErrTopicCongested, while a local
(raw) message only drops the buffer for (topic, serverID) and
deregisters no peer. -/
theorem c5_overflow_asymmetry (cfg : MessageServerConfig) (serverID : String)
    (st : ServerState) (senderID : String) (epoch : Int) (topic : String)
    (sequence : Int) (addEventOk : Bool) (peer : CDCPeer) :
    ((lookupPeer st.peers senderID = some peer → peer.epoch = epoch →
       peer.valid = true → st.handlers.contains topic = false →
       ((pendingLookup st.pendingMessages ⟨topic, senderID⟩).length : Int) >
         cfg.maxPendingMessageCountPerTopic →
       handleMessage cfg st senderID epoch topic sequence addEventOk =
         some ({ st with
                   pendingMessages := (pendingErase st.pendingMessages ⟨topic, senderID⟩),
                   peers := (erasePeer st.peers peer.peerID) },
               [.peerDeregistered peer.peerID (some .topicCongested)])) ∧
     (st.handlers.contains topic = false →
       ((pendingLookup st.pendingMessages ⟨topic, serverID⟩).length : Int) >
         cfg.maxPendingMessageCountPerTopic →
       handleRawMessage cfg serverID st topic =
         ({ st with
              pendingMessages := (pendingErase st.pendingMessages ⟨topic, serverID⟩) },
          []))) := by
  constructor
  · intro hp he hv hh hc
    exact handleMessage_overflow hp he hv hh hc
  · intro hh hc
    unfold handleRawMessage
    rw [if_neg (show ¬ (st.handlers.contains topic = true) by rw [hh]; simp)]
    dsimp only
    rw [if_pos (show ((pendingLookup st.pendingMessages ⟨topic, serverID⟩ ++
        [PendingMessageEntry.raw topic]).length : Int) ≥
        cfg.maxPendingMessageCountPerTopic by simp; omega)]
    rw [pendingErase_set_self]

theorem c5_witness :
    (handleMessage ⟨0, 10⟩
        ⟨[("p", ⟨"p", 1, true⟩)], [], [(⟨"t", "p"⟩, [.wire "p" 1 "t" 1])], []⟩
        "p" 1 "t" 5 true =
      some (⟨[], [], [], []⟩, [.peerDeregistered "p" (some .topicCongested)])) ∧
    (handleRawMessage ⟨0, 10⟩ "srv"
        ⟨[], [], [(⟨"t", "srv"⟩, [.raw "t"])], []⟩ "t" =
      (⟨[], [], [], []⟩, [])) :=
  ⟨(c5_overflow_asymmetry ⟨0, 10⟩ "srv"
      ⟨[("p", ⟨"p", 1, true⟩)], [], [(⟨"t", "p"⟩, [.wire "p" 1 "t" 1])], []⟩
      "p" 1 "t" 5 true ⟨"p", 1, true⟩).1 (by decide) rfl rfl (by decide) (by decide),
    (c5_overflow_asymmetry ⟨0, 10⟩ "srv"
      ⟨[], [], [(⟨"t", "srv"⟩, [.raw "t"])], []⟩
      "p" 1 "t" 5 true ⟨"p", 1, true⟩).2 (by decide) (by decide)⟩

/-- C3 counterexample: with MaxPendingMessageCountPerTopic = 1, the
state reached from the initial state by registering a peer and letting
it send two messages on a handlerless topic holds 2 pending entries for
that key, exceeding the claimed bound of 1. -/
theorem c3_counterexample :
    (applyOps ⟨1, 10⟩ "srv" initialServerState
        [.opRegisterPeer "p" 1, .opMessage "p" 1 "t" 1 true,
          .opMessage "p" 1 "t" 2 true]).map
      (fun st => pendingCount st ⟨"t", "p"⟩) = some 2 ∧
    ¬ ((2 : Int) ≤ (⟨1, 10⟩ : MessageServerConfig).maxPendingMessageCountPerTopic) := by
  decide

/-- C3 (amended): in every state reachable from the initial state the
pending buffer of each (topic, senderID) key holds at most
MaxPendingMessageCountPerTopic + 1 entries (the configured maximum can
be exceeded by exactly one), and a wire message arriving for a
handlerless topic whose key already exceeds the configured maximum
triggers exactly one deregister-with-congestion of the sending peer,
deleting the buffer for that key. -/
theorem c3_pending_bound (cfg : MessageServerConfig) (serverID : String)
    (h0 : 0 ≤ cfg.maxPendingMessageCountPerTopic) :
    (∀ (ops : List ServerOp) (st : ServerState),
      applyOps cfg serverID initialServerState ops = some st →
      ∀ key : TopicSenderPair,
        ((pendingCount st key : Int)) ≤ cfg.maxPendingMessageCountPerTopic + 1) ∧
    (∀ (st : ServerState) (senderID : String) (epoch : Int) (topic : String)
        (sequence : Int) (addEventOk : Bool) (peer : CDCPeer),
      lookupPeer st.peers senderID = some peer → peer.epoch = epoch →
      peer.valid = true → st.handlers.contains topic = false →
      ((pendingCount st ⟨topic, senderID⟩ : Int)) >
        cfg.maxPendingMessageCountPerTopic →
      handleMessage cfg st senderID epoch topic sequence addEventOk =
        some ({ st with
                  pendingMessages := (pendingErase st.pendingMessages ⟨topic, senderID⟩),
                  peers := (erasePeer st.peers peer.peerID) },
              [.peerDeregistered peer.peerID (some .topicCongested)])) := by
  constructor
  · intro ops st hrun key
    have hinit : PendingInv cfg initialServerState.pendingMessages := by
      constructor
      · intro k
        show ((pendingLookup [] k).length : Int) ≤ _
        simp only [pendingLookup, List.length_nil]
        omega
      · intro kv hkv
        simp [initialServerState] at hkv
    have := applyOps_inv ops initialServerState st hinit hrun
    exact this.1 key
  · intro st senderID epoch topic sequence addEventOk peer hp he hv hh hc
    exact handleMessage_overflow hp he hv hh hc

theorem c3_witness :
    ((0 : Int) ≤ (⟨1, 10⟩ : MessageServerConfig).maxPendingMessageCountPerTopic) ∧
    applyOps ⟨1, 10⟩ "srv" initialServerState [] = some initialServerState ∧
    ((pendingCount initialServerState ⟨"t", "p"⟩ : Int) ≤
      (⟨1, 10⟩ : MessageServerConfig).maxPendingMessageCountPerTopic + 1) ∧
    handleMessage ⟨1, 10⟩
        ⟨[("p", ⟨"p", 1, true⟩)], [],
          [(⟨"t", "p"⟩, [.wire "p" 1 "t" 1, .wire "p" 1 "t" 2])], []⟩
        "p" 1 "t" 5 true =
      some (⟨[], [], [], []⟩, [.peerDeregistered "p" (some .topicCongested)]) :=
  ⟨by decide, rfl,
    (c3_pending_bound ⟨1, 10⟩ "srv" (by decide)).1 [] initialServerState rfl ⟨"t", "p"⟩,
    (c3_pending_bound ⟨1, 10⟩ "srv" (by decide)).2
      ⟨[("p", ⟨"p", 1, true⟩)], [],
        [(⟨"t", "p"⟩, [.wire "p" 1 "t" 1, .wire "p" 1 "t" 2])], []⟩
      "p" 1 "t" 5 true ⟨"p", 1, true⟩ (by decide) rfl rfl (by decide) (by decide)⟩

end P2PServer
